import Mathlib

/-!
# Verification of `ts-nano-event` (src/src/index.ts)

Shallow embedding of the typed event emitter. The TypeScript source keeps,
per emitter instance, a `Map` from event name to a `Set` of listener
references:

```
const m = new Map<keyof Events, Set<Listener<never>>>();
on(event, listener)  : let s = m.get(event); if (!s) m.set(event, (s = new Set()));
                       s.add(listener); return () => { s.delete(listener); };
off(event, listener) : m.get(event)?.delete(listener);
emit(event, data)    : m.get(event)?.forEach((fn) => { fn(data); });
```

Modelling choices, faithful to JavaScript semantics:
* A JS `Set` preserves insertion order and never holds duplicates
  (`add` of a present element is a no-op that keeps the original position;
  `delete` removes the element). We model it as a `List Listener` together
  with `setAdd` / `setDelete` mirroring `Set.add` / `Set.delete`.
* A JS `Map` preserves key insertion order with unique keys; `set` of an
  existing key overwrites its value in place. We model it as an association
  list `List (Name × List Listener)` with `mapGet` / `mapSet`.
* Listener references are identified by reference identity only; we model
  a reference as an opaque identifier (`Listener := Nat`). What a listener
  does when called is not part of the registry; for `emit` we parameterise
  by a `fails : Listener → V → Bool` oracle saying whether a given listener
  throws on a given payload, and `emit` returns the ordered trace of
  invocations (listener, payload) plus a flag telling whether an exception
  escaped to the caller of `emit` (JS `forEach` stops and propagates the
  first exception).
* `emit` never mutates the registry (the modelled listeners do not re-enter
  the emitter), so it returns only the trace.
-/

namespace TsNanoEvent

/-- A listener reference, identified by reference identity. -/
abbrev Listener := Nat

/-- `Set.add` on a JS `Set` viewed as its insertion-ordered element list:
a no-op when the element is present, otherwise appended at the end. -/
def setAdd (s : List Listener) (f : Listener) : List Listener :=
  if f ∈ s then s else s ++ [f]

/-- `Set.delete` on a JS `Set` viewed as its insertion-ordered element list:
removes the element if present (a JS `Set` holds no duplicates, so removing
every occurrence coincides with removing the unique one). -/
def setDelete (s : List Listener) (f : Listener) : List Listener :=
  s.filter (fun g => g ≠ f)

/-- The per-instance registry `m : Map<keyof Events, Set<Listener<never>>>`,
as an insertion-ordered association list from event name to the listener set. -/
abbrev Registry (Name : Type) := List (Name × List Listener)

variable {Name : Type} [DecidableEq Name] {V : Type}

/-- `m.get(n)`: value of the first (unique) entry with key `n`, if any. -/
def mapGet : Registry Name → Name → Option (List Listener)
  | [], _ => none
  | (k, s) :: rest, n => if k = n then some s else mapGet rest n

/-- `m.set(n, s)`: overwrite the entry for key `n` in place, or append a new
entry at the end (JS `Map` keeps the original key position on overwrite). -/
def mapSet : Registry Name → Name → List Listener → Registry Name
  | [], n, s => [(n, s)]
  | (k, t) :: rest, n, s =>
    if k = n then (k, s) :: rest else (k, t) :: mapSet rest n s

/-- `createEmitter()`: a fresh emitter starts with an empty registry
(`const m = new Map()`). -/
def createEmitter : Registry Name := []

/-- `on(event, listener)`: fetch the set for `event`, creating an empty one
if absent, then `Set.add` the listener. (The source mutates the set `s` in
place; since `s` aliases the map entry, the registry afterwards holds the
grown set under `event`.) -/
def on' (m : Registry Name) (n : Name) (f : Listener) : Registry Name :=
  match mapGet m n with
  | none => mapSet m n (setAdd [] f)
  | some s => mapSet m n (setAdd s f)

/-- `off(event, listener)`: `m.get(event)?.delete(listener)` — delete the
listener from the set for `event` when that entry exists, else do nothing. -/
def off (m : Registry Name) (n : Name) (f : Listener) : Registry Name :=
  match mapGet m n with
  | none => m
  | some s => mapSet m n (setDelete s f)

/-- The unsubscribe closure `() => { s.delete(listener); }` returned by
`on(event, listener)`. It captures the set object `s` for `event`; entries
are never removed from or replaced in the map after creation (only the sets
are mutated in place), so at every later point the captured `s` IS the
registry's current set for `event`, and invoking the closure deletes
`listener` from that current set. -/
def unsub (m : Registry Name) (n : Name) (f : Listener) : Registry Name :=
  match mapGet m n with
  | none => m
  | some s => mapSet m n (setDelete s f)

/-- The listeners currently registered for `n`, in insertion (subscription)
order; `[]` when the registry has no entry for `n`. -/
def listeners (m : Registry Name) (n : Name) : List Listener :=
  (mapGet m n).getD []

/-- `forEach((fn) => { fn(data); })` over the listener set: invoke each
listener in order with the payload, stopping when one throws (the trace
records every invocation made, the flag whether an exception escaped). -/
def runListeners (fails : Listener → V → Bool) (v : V) :
    List Listener → List (Listener × V) × Bool
  | [] => ([], false)
  | f :: rest =>
    if fails f v then ([(f, v)], true)
    else
      let r := runListeners fails v rest
      ((f, v) :: r.1, r.2)

/-- `emit(event, data)`: `m.get(event)?.forEach((fn) => { fn(data); })` —
invoke the listeners registered for `event`, in order, with `data`;
a missing entry means nothing happens. -/
def emit (fails : Listener → V → Bool) (m : Registry Name) (n : Name) (v : V) :
    List (Listener × V) × Bool :=
  match mapGet m n with
  | none => ([], false)
  | some s => runListeners fails v s

/-- The oracle for listeners that never throw. -/
def noFails : Listener → V → Bool := fun _ _ => false

/-- A world of several independently created emitter instances: the list of
their registries, an instance being addressed by its index. `createEmitter`
allocates a fresh, empty registry sharing nothing with the existing ones. -/
abbrev Store (Name : Type) := List (Registry Name)

/-- Allocate a new emitter instance in the store, returning its index. -/
def storeCreate (st : Store Name) : Store Name × Nat :=
  (st ++ [createEmitter], st.length)

/-- `on` performed on instance `i` of the store. -/
def storeOn (st : Store Name) (i : Nat) (n : Name) (f : Listener) : Store Name :=
  st.set i (on' (st.getD i createEmitter) n f)

/-- `off` performed on instance `i` of the store. -/
def storeOff (st : Store Name) (i : Nat) (n : Name) (f : Listener) : Store Name :=
  st.set i (off (st.getD i createEmitter) n f)

/-- `emit` performed on instance `i` of the store (registries unchanged). -/
def storeEmit (fails : Listener → V → Bool) (st : Store Name) (i : Nat)
    (n : Name) (v : V) : List (Listener × V) × Bool :=
  emit fails (st.getD i createEmitter) n v

end TsNanoEvent

namespace TsNanoEvent

variable {Name : Type} [DecidableEq Name] {V : Type}

/-! ## Basic lemmas about the map and set model -/

theorem mapGet_mapSet_self (m : Registry Name) (n : Name) (s : List Listener) :
    mapGet (mapSet m n s) n = some s := by
  induction m with
  | nil => simp [mapSet, mapGet]
  | cons p rest ih =>
    obtain ⟨k, t⟩ := p
    by_cases h : k = n
    · simp [mapSet, mapGet, h]
    · simp [mapSet, mapGet, h, ih]

theorem mapGet_mapSet_ne (m : Registry Name) (n k : Name) (s : List Listener)
    (h : k ≠ n) : mapGet (mapSet m n s) k = mapGet m k := by
  induction m with
  | nil =>
    simp only [mapSet, mapGet]
    rw [if_neg (fun hh => h hh.symm)]
  | cons p rest ih =>
    obtain ⟨k', t⟩ := p
    by_cases h' : k' = n
    · subst h'
      have hk : ¬k' = k := fun hh => h hh.symm
      simp [mapSet, mapGet, hk]
    · simp [mapSet, mapGet, h', ih]

theorem mapSet_self (m : Registry Name) (n : Name) (s : List Listener)
    (h : mapGet m n = some s) : mapSet m n s = m := by
  induction m with
  | nil => simp [mapGet] at h
  | cons p rest ih =>
    obtain ⟨k, t⟩ := p
    by_cases h' : k = n
    · simp only [mapGet, if_pos h'] at h
      cases h
      simp [mapSet, h']
    · simp only [mapGet, if_neg h'] at h
      simp [mapSet, h', ih h]

theorem mem_setAdd_self (s : List Listener) (f : Listener) : f ∈ setAdd s f := by
  by_cases h : f ∈ s
  · simp [setAdd, h]
  · simp [setAdd, h]

theorem setAdd_of_mem {s : List Listener} {f : Listener} (h : f ∈ s) :
    setAdd s f = s := by
  simp [setAdd, h]

theorem setAdd_of_not_mem {s : List Listener} {f : Listener} (h : f ∉ s) :
    setAdd s f = s ++ [f] := by
  simp [setAdd, h]

theorem not_mem_setDelete (s : List Listener) (f : Listener) :
    f ∉ setDelete s f := by
  simp [setDelete]

theorem setDelete_of_not_mem {s : List Listener} {f : Listener} (h : f ∉ s) :
    setDelete s f = s := by
  rw [setDelete, List.filter_eq_self]
  intro a ha
  simp only [ne_eq, decide_eq_true_eq]
  exact fun hx => h (hx ▸ ha)

/-! ## Lemmas about `on`, `off`, `unsub`, `listeners` -/

theorem mapGet_on_self (m : Registry Name) (n : Name) (f : Listener) :
    mapGet (on' m n f) n = some (setAdd (listeners m n) f) := by
  unfold on' listeners
  cases h : mapGet m n with
  | none => simp [mapGet_mapSet_self, h]
  | some s => simp [mapGet_mapSet_self, h]

theorem listeners_on_self (m : Registry Name) (n : Name) (f : Listener) :
    listeners (on' m n f) n = setAdd (listeners m n) f := by
  simp [listeners, mapGet_on_self]

theorem listeners_on_ne (m : Registry Name) {n k : Name} (f : Listener)
    (h : k ≠ n) : listeners (on' m n f) k = listeners m k := by
  unfold on' listeners
  cases hm : mapGet m n <;> simp [mapGet_mapSet_ne _ _ _ _ h]

theorem unsub_eq_off_def (m : Registry Name) (n : Name) (f : Listener) :
    unsub m n f = off m n f := rfl

theorem listeners_unsub_self (m : Registry Name) (n : Name) (f : Listener) :
    listeners (unsub m n f) n = setDelete (listeners m n) f := by
  unfold unsub listeners
  cases h : mapGet m n with
  | none => simp [h, setDelete]
  | some s => simp [mapGet_mapSet_self]

theorem unsub_of_not_mem {m : Registry Name} {n : Name} {f : Listener}
    (h : f ∉ listeners m n) : unsub m n f = m := by
  unfold unsub
  cases hm : mapGet m n with
  | none => rfl
  | some s =>
    have hs : f ∉ s := by
      simpa [listeners, hm] using h
    show mapSet m n (setDelete s f) = m
    rw [setDelete_of_not_mem hs, mapSet_self m n s hm]

/-! ## Lemmas about `runListeners` and `emit` -/

theorem runListeners_noFails (v : V) (l : List Listener) :
    runListeners noFails v l = (l.map (fun f => (f, v)), false) := by
  induction l with
  | nil => rfl
  | cons f rest ih => simp [runListeners, noFails, ih]

theorem emit_noFails (m : Registry Name) (n : Name) (v : V) :
    emit noFails m n v = ((listeners m n).map (fun f => (f, v)), false) := by
  unfold emit listeners
  cases h : mapGet m n <;> simp [runListeners_noFails]

theorem runListeners_fault (fails : Listener → V → Bool) (v : V)
    (l1 l2 : List Listener) (f : Listener)
    (h1 : ∀ g ∈ l1, fails g v = false) (hf : fails f v = true) :
    runListeners fails v (l1 ++ f :: l2) =
      (l1.map (fun g => (g, v)) ++ [(f, v)], true) := by
  induction l1 with
  | nil => simp [runListeners, hf]
  | cons g rest ih =>
    have hg : fails g v = false := h1 g (List.mem_cons_self g rest)
    have ih' := ih (fun x hx => h1 x (List.mem_cons_of_mem g hx))
    simp [runListeners, hg, ih']

theorem runListeners_fst_mem (fails : Listener → V → Bool) (v : V)
    (l : List Listener) {p : Listener × V}
    (hp : p ∈ (runListeners fails v l).1) : p.1 ∈ l := by
  induction l with
  | nil => simp [runListeners] at hp
  | cons f rest ih =>
    by_cases hf : fails f v
    · simp [runListeners, hf] at hp
      simp [hp]
    · simp [runListeners, hf] at hp
      rcases hp with hp | hp
      · simp [hp]
      · exact List.mem_cons_of_mem f (ih hp)

end TsNanoEvent

namespace TsNanoEvent

variable {Name : Type} [DecidableEq Name] {V : Type}

/-! ## Counting helpers for invocation traces -/

theorem countP_fst_map (l : List Listener) (f : Listener) (v : V) :
    (l.map (fun g => (g, v))).countP (fun p => p.1 == f) = l.count f := by
  induction l with
  | nil => rfl
  | cons g rest ih =>
    by_cases h : g = f
    · subst h
      simp [List.countP_cons, List.count_cons, ih]
    · simp [List.countP_cons, List.count_cons, ih, h]

theorem count_setAdd_self {l : List Listener} (f : Listener) (h : l.Nodup) :
    (setAdd l f).count f = 1 := by
  by_cases hf : f ∈ l
  · rw [setAdd_of_mem hf]
    exact List.count_eq_one_of_mem h hf
  · rw [setAdd_of_not_mem hf]
    simp [List.count_eq_zero_of_not_mem hf]

theorem on_eq_mapSet (m : Registry Name) (n : Name) (f : Listener) :
    on' m n f = mapSet m n (setAdd (listeners m n) f) := by
  unfold on' listeners
  cases h : mapGet m n <;> simp

/-! ## C1 -/

/-- **C1, counterexample.** The source stores listeners in a JS `Set`, which
deduplicates by reference: registering listener `7` twice under name `0`
leaves a single entry `[7]` (not two), and a subsequent publish invokes it
once (a one-element trace), refuting "two independent entries, invoked
twice". -/
theorem C1_counterexample :
    on' (on' (createEmitter : Registry Nat) 0 7) 0 7 = [(0, [7])] ∧
    (emit (noFails : Listener → Nat → Bool)
        (on' (on' (createEmitter : Registry Nat) 0 7) 0 7) 0 5).1 = [(7, 5)] ∧
    ¬((emit (noFails : Listener → Nat → Bool)
        (on' (on' (createEmitter : Registry Nat) 0 7) 0 7) 0 5).1.countP
          (fun p => p.1 == 7) = 2) := by
  refine ⟨by decide, by decide, by decide⟩

/-- **C1, amended.** Registering the same listener reference a second time
under the same name is deduplicated by the underlying `Set`: the second
`on` call leaves the registry unchanged, and a subsequent publish invokes
the listener exactly once (for any registry whose listener collection for
`n` holds no duplicates, which every reachable registry does). -/
theorem C1_amended (m : Registry Name) (n : Name) (f : Listener) (v : V)
    (h : (listeners m n).Nodup) :
    on' (on' m n f) n f = on' m n f ∧
    (emit noFails (on' (on' m n f) n f) n v).1.countP (fun p => p.1 == f) = 1 := by
  have hidem : on' (on' m n f) n f = on' m n f := by
    rw [on_eq_mapSet (on' m n f) n f, listeners_on_self,
      setAdd_of_mem (mem_setAdd_self _ _)]
    exact mapSet_self _ n _ (mapGet_on_self m n f)
  refine ⟨hidem, ?_⟩
  rw [hidem, emit_noFails, countP_fst_map, listeners_on_self]
  by_cases hf : f ∈ listeners m n
  · rw [setAdd_of_mem hf]
    exact List.count_eq_one_of_mem h hf
  · rw [setAdd_of_not_mem hf]
    simp [List.count_eq_zero_of_not_mem hf]

/-- Witness for `C1_amended` at the empty registry, name `0`, listener `7`,
payload `5`. -/
theorem C1_amended_witness :
    on' (on' (createEmitter : Registry Nat) 0 7) 0 7 =
      on' (createEmitter : Registry Nat) 0 7 ∧
    (emit (noFails : Listener → Nat → Bool)
        (on' (on' (createEmitter : Registry Nat) 0 7) 0 7) 0 5).1.countP
      (fun p => p.1 == 7) = 1 :=
  C1_amended createEmitter 0 7 5 (by decide)

/-! ## C2 -/

/-- **C2, counterexample.** The unsubscribe closure is not idempotent across
an interleaved re-registration: register `7` under `0`, unsubscribe, register
`7` again, then invoke the same unsubscribe a second time — the second
invocation removes the fresh registration instead of being a no-op, because
the closure deletes the reference from the (shared, aliased) current set. -/
theorem C2_counterexample :
    unsub (on' (unsub (on' (createEmitter : Registry Nat) 0 7) 0 7) 0 7) 0 7 ≠
      on' (unsub (on' (createEmitter : Registry Nat) 0 7) 0 7) 0 7 := by
  decide

/-- **C2, amended.** The unsubscribe callable removes that registration:
after invoking it the listener is no longer registered under the name; and
any invocation made while the listener is not registered under the name
(in particular a second invocation with no interleaved re-registration of
the same reference) is a no-op leaving the registry unchanged. -/
theorem C2_amended (m : Registry Name) (n : Name) (f : Listener) :
    f ∉ listeners (unsub m n f) n ∧
    (∀ m' : Registry Name, f ∉ listeners m' n → unsub m' n f = m') := by
  refine ⟨?_, fun m' h => unsub_of_not_mem h⟩
  rw [listeners_unsub_self]
  exact not_mem_setDelete _ _

/-- Witness for `C2_amended`: a second invocation of the unsubscribe
callable, with nothing interleaved, leaves the registry unchanged. -/
theorem C2_amended_witness :
    unsub (unsub (on' (createEmitter : Registry Nat) 0 7) 0 7) 0 7 =
      unsub (on' (createEmitter : Registry Nat) 0 7) 0 7 :=
  (C2_amended (on' (createEmitter : Registry Nat) 0 7) 0 7).2
    (unsub (on' (createEmitter : Registry Nat) 0 7) 0 7) (by decide)

end TsNanoEvent

namespace TsNanoEvent

variable {Name : Type} [DecidableEq Name] {V : Type}

/-! ## C3 -/

/-- **C3.** A publish with no faulting listener invokes exactly the listeners
currently registered for the name, in subscription order (the registry's
insertion-ordered collection), each receiving the payload as its sole
argument, and no exception escapes. -/
theorem C3_delivery_in_order (m : Registry Name) (n : Name) (v : V) :
    emit noFails m n v = ((listeners m n).map (fun f => (f, v)), false) :=
  emit_noFails m n v

/-! ## C4 -/

/-- **C4.** For a listener not yet registered under the name, registering it
and then publishing invokes it exactly once, and that invocation carries the
published payload as its sole argument. -/
theorem C4_basic_delivery (m : Registry Name) (n : Name) (f : Listener) (v : V)
    (h : f ∉ listeners m n) :
    (emit noFails (on' m n f) n v).1.countP (fun p => p.1 == f) = 1 ∧
    (f, v) ∈ (emit noFails (on' m n f) n v).1 := by
  rw [emit_noFails]
  constructor
  · rw [countP_fst_map, listeners_on_self, setAdd_of_not_mem h]
    simp [List.count_eq_zero_of_not_mem h]
  · rw [listeners_on_self]
    exact List.mem_map_of_mem _ (mem_setAdd_self _ _)

/-- Witness for `C4_basic_delivery` at the empty registry, name `0`,
listener `7`, payload `5`. -/
theorem C4_witness :
    (emit (noFails : Listener → Nat → Bool)
        (on' (createEmitter : Registry Nat) 0 7) 0 5).1.countP
      (fun p => p.1 == 7) = 1 ∧
    ((7 : Listener), (5 : Nat)) ∈
      (emit (noFails : Listener → Nat → Bool)
        (on' (createEmitter : Registry Nat) 0 7) 0 5).1 :=
  C4_basic_delivery createEmitter 0 7 5 (by decide)

/-! ## C5 -/

/-- **C5.** Register, unsubscribe via the returned callable, register the same
listener reference again: a subsequent publish invokes the listener exactly
once — not zero times and not twice. Holds for every starting registry. -/
theorem C5_resubscribe_once (m : Registry Name) (n : Name) (f : Listener) (v : V) :
    (emit noFails (on' (unsub (on' m n f) n f) n f) n v).1.countP
      (fun p => p.1 == f) = 1 := by
  rw [emit_noFails, countP_fst_map, listeners_on_self]
  have hnm : f ∉ listeners (unsub (on' m n f) n f) n := by
    rw [listeners_unsub_self]
    exact not_mem_setDelete _ _
  rw [setAdd_of_not_mem hnm]
  simp [List.count_eq_zero_of_not_mem hnm]

/-! ## C6 -/

/-- **C6.** If the listeners for a name are `l1 ++ f :: l2` in subscription
order, none of `l1` faults on the payload and `f` does, then publish invokes
exactly `l1` in order (each with the payload) and then `f`, the listeners in
`l2` are not invoked, and the fault escapes to the caller of `emit`. -/
theorem C6_fault_propagation (fails : Listener → V → Bool) (m : Registry Name)
    (n : Name) (v : V) (l1 l2 : List Listener) (f : Listener)
    (hl : listeners m n = l1 ++ f :: l2)
    (h1 : ∀ g ∈ l1, fails g v = false)
    (hf : fails f v = true) :
    emit fails m n v = (l1.map (fun g => (g, v)) ++ [(f, v)], true) := by
  unfold emit
  cases hm : mapGet m n with
  | none =>
    rw [listeners, hm] at hl
    exact absurd hl.symm (by simp)
  | some s =>
    have hs : s = l1 ++ f :: l2 := by
      simpa [listeners, hm] using hl
    show runListeners fails v s = _
    rw [hs]
    exact runListeners_fault fails v l1 l2 f h1 hf

/-- Witness for `C6_fault_propagation`: listeners `7`, `9`, `8` under name
`0`, where only `9` throws; publish invokes `7` then `9`, the fault escapes,
and `8` is not invoked. -/
theorem C6_witness :
    emit (fun g (_ : Nat) => g == 9)
        (on' (on' (on' (createEmitter : Registry Nat) 0 7) 0 9) 0 8) 0 5 =
      ([(7, 5), (9, 5)], true) := by
  have h := C6_fault_propagation (fun g (_ : Nat) => g == 9)
    (on' (on' (on' (createEmitter : Registry Nat) 0 7) 0 9) 0 8) 0 5
    [7] [8] 9 (by decide) (by decide) (by decide)
  simpa using h

/-! ## C7 -/

/-- **C7.** Publishing a name with no registered listener invokes nothing and
no exception escapes, and unregistering a listener that is not registered
under the name (including a name with no registry entry at all) leaves the
registry unchanged; neither call faults. -/
theorem C7_noop_safety (fails : Listener → V → Bool) (m : Registry Name)
    (n1 n2 : Name) (v : V) (f : Listener)
    (h1 : listeners m n1 = []) (h2 : f ∉ listeners m n2) :
    emit fails m n1 v = ([], false) ∧ off m n2 f = m := by
  constructor
  · unfold emit
    cases hm : mapGet m n1 with
    | none => rfl
    | some s =>
      have hs : s = [] := by simpa [listeners, hm] using h1
      show runListeners fails v s = _
      rw [hs]
      rfl
  · rw [← unsub_eq_off_def]
    exact unsub_of_not_mem h2

/-- Witness for `C7_noop_safety`: registry holding only listener `7` under
name `0`; publishing name `1` and unregistering listener `9` under name `0`
are both no-ops. -/
theorem C7_witness :
    emit (noFails : Listener → Nat → Bool)
        (on' (createEmitter : Registry Nat) 0 7) 1 5 = ([], false) ∧
    off (on' (createEmitter : Registry Nat) 0 7) 0 9 =
      on' (createEmitter : Registry Nat) 0 7 :=
  C7_noop_safety noFails (on' (createEmitter : Registry Nat) 0 7) 1 0 5 9
    (by decide) (by decide)

/-! ## C8 -/

/-- **C8.** Name isolation: a listener not registered under name `B` — in
particular one registered only under a different name `A` — is never invoked
by a publish for `B`, whatever the other listeners do. -/
theorem C8_name_isolation (fails : Listener → V → Bool) (m : Registry Name)
    (A B : Name) (v : V) (f : Listener)
    (hAB : A ≠ B) (hf : f ∉ listeners m B) :
    (emit fails (on' m A f) B v).1.countP (fun p => p.1 == f) = 0 := by
  have hBl : listeners (on' m A f) B = listeners m B :=
    listeners_on_ne m f (fun h => hAB h.symm)
  rw [List.countP_eq_zero]
  intro p hp
  have hmem : p.1 ∈ listeners (on' m A f) B := by
    revert hp
    unfold emit
    cases hm : mapGet (on' m A f) B with
    | none => intro hp; simp at hp
    | some s =>
      intro hp
      have : p.1 ∈ s := runListeners_fst_mem fails v s hp
      simpa [listeners, hm] using this
  have hne : p.1 ≠ f := by
    intro hEq
    rw [hBl] at hmem
    exact hf (hEq ▸ hmem)
  simpa using hne

/-- Witness for `C8_name_isolation`: listener `7` registered only for name
`0` is not invoked when name `1` is published. -/
theorem C8_witness :
    (emit (noFails : Listener → Nat → Bool)
        (on' (createEmitter : Registry Nat) 0 7) 1 5).1.countP
      (fun p => p.1 == 7) = 0 :=
  C8_name_isolation noFails createEmitter 0 1 5 7 (by decide) (by decide)

/-! ## C9 -/

omit [DecidableEq Name] in
theorem store_getD_set_ne (st : Store Name) (i j : Nat) (x : Registry Name)
    (h : i ≠ j) : (st.set i x).getD j createEmitter = st.getD j createEmitter := by
  simp [List.getD_eq_getElem?_getD, List.getElem?_set_ne h]

/-- **C9.** Instance isolation: `on` and `off` performed on instance `i`
leave the registry of every other instance `j` untouched, and a publish on
instance `i` never invokes a listener that is not registered on instance `i`
under the published name (in particular one registered only on another
instance). -/
theorem C9_instance_isolation (fails : Listener → V → Bool) (st : Store Name)
    (i j : Nat) (n n' : Name) (f g : Listener) (v : V)
    (hij : i ≠ j) (hg : g ∉ listeners (st.getD i createEmitter) n) :
    (storeOn st i n' f).getD j createEmitter = st.getD j createEmitter ∧
    (storeOff st i n' f).getD j createEmitter = st.getD j createEmitter ∧
    (storeEmit fails st i n v).1.countP (fun p => p.1 == g) = 0 := by
  refine ⟨store_getD_set_ne st i j _ hij, store_getD_set_ne st i j _ hij, ?_⟩
  rw [List.countP_eq_zero]
  intro p hp
  have hmem : p.1 ∈ listeners (st.getD i createEmitter) n := by
    revert hp
    unfold storeEmit emit
    cases hm : mapGet (st.getD i createEmitter) n with
    | none => intro hp; simp at hp
    | some s =>
      intro hp
      have hs : p.1 ∈ s := runListeners_fst_mem fails v s hp
      unfold listeners
      rw [hm]
      exact hs
  have hne : p.1 ≠ g := fun hEq => hg (hEq ▸ hmem)
  simpa using hne

/-- Witness for `C9_instance_isolation`: a store of two emitters, listener
`9` registered only on instance `1`; operations on instance `0` do not touch
instance `1`'s registry and a publish on instance `0` does not invoke `9`. -/
theorem C9_witness :
    (storeOn [createEmitter, on' (createEmitter : Registry Nat) 0 9] 0 0 7).getD
        1 createEmitter =
      [createEmitter, on' (createEmitter : Registry Nat) 0 9].getD 1 createEmitter ∧
    (storeOff [createEmitter, on' (createEmitter : Registry Nat) 0 9] 0 0 7).getD
        1 createEmitter =
      [createEmitter, on' (createEmitter : Registry Nat) 0 9].getD 1 createEmitter ∧
    (storeEmit (noFails : Listener → Nat → Bool)
        [createEmitter, on' (createEmitter : Registry Nat) 0 9] 0 0 5).1.countP
      (fun p => p.1 == 9) = 0 :=
  C9_instance_isolation noFails
    [createEmitter, on' (createEmitter : Registry Nat) 0 9] 0 1 0 0 7 9 5
    (by decide) (by decide)

/-! ## C10 -/

/-- **C10.** The unsubscribe closure returned by `on(n, f)` is behaviorally
equivalent to `off(n, f)`: at every registry state both remove listener `f`
(by reference) from the current collection for `n` — deleting it from the
collection when an entry exists and doing nothing otherwise — regardless of
which registration produced the closure and of operations in between. -/
theorem C10_unsub_equiv_off (m : Registry Name) (n : Name) (f : Listener) :
    unsub m n f = off m n f ∧
    listeners (unsub m n f) n = setDelete (listeners m n) f :=
  ⟨unsub_eq_off_def m n f, listeners_unsub_self m n f⟩

end TsNanoEvent
